import Mathlib

/-!
Shallow embedding of the Personal Expense Tracker repository
(`personal_expense_tracker.py` and the unnamed enhanced variant), together
with proofs about its validation, store and aggregation behaviour.

Amounts are modelled as exact rationals (the Python code uses `float`);
strings are modelled as Lean `String`s, with Python's `str.strip`,
`str.lower`, `float(...)` parsing and `datetime.strptime(_, "%Y-%m-%d")`
given explicit executable models below.
-/

set_option maxRecDepth 20000

/-! ### Python string primitives -/

/-- Characters removed by Python's `str.strip()` (ASCII whitespace). -/
def isPySpace (c : Char) : Bool :=
  c = ' ' || c = '\t' || c = '\n' || c = '\r' || c = '\x0b' || c = '\x0c'

/-- Strip `isPySpace` characters from both ends of a character list. -/
def stripChars (cs : List Char) : List Char :=
  ((cs.dropWhile isPySpace).reverse.dropWhile isPySpace).reverse

/-- Model of Python `s.strip()`. -/
def pyStrip (s : String) : String :=
  String.mk (stripChars s.data)

/-- Model of Python `s.lower()` (ASCII case folding). -/
def pyLower (s : String) : String :=
  String.mk (s.data.map Char.toLower)

/-- Numeric value of a list of decimal digit characters. -/
def digitsVal (cs : List Char) : Nat :=
  cs.foldl (fun a c => a * 10 + (c.toNat - 48)) 0

def allDigits (cs : List Char) : Bool :=
  cs.all (fun c => c.isDigit)

/-- Model of Python `s.split('-')` on a character list. -/
def splitOnDash (cs : List Char) : List (List Char) :=
  match cs with
  | [] => [[]]
  | c :: rest =>
    let r := splitOnDash rest
    if c = '-' then [] :: r
    else
      match r with
      | [] => [[c]]
      | g :: gs => (c :: g) :: gs

/-! ### Model of `datetime.strptime(s, "%Y-%m-%d")`

CPython's `_strptime` compiles `%Y` to exactly four digits and `%m`, `%d`
to one or two digits whose value is in range (so `2025-2-3` is accepted);
the resulting `datetime` constructor then rejects day numbers that do not
exist in the given month/year, and years outside `1..9999`. -/

def isLeapYear (y : Nat) : Bool :=
  y % 4 = 0 && (y % 100 ≠ 0 || y % 400 = 0)

def daysInMonth (y m : Nat) : Nat :=
  if m = 2 then (if isLeapYear y then 29 else 28)
  else if m = 4 || m = 6 || m = 9 || m = 11 then 30
  else 31

/-- The `%Y` field: exactly four decimal digits. -/
def matchYearField (cs : List Char) : Bool :=
  cs.length = 4 && allDigits cs

/-- The `%m`/`%d` fields: one or two decimal digits, value between 1 and `hi`. -/
def matchNumField (cs : List Char) (hi : Nat) : Bool :=
  allDigits cs && (cs.length = 1 || cs.length = 2)
    && 1 ≤ digitsVal cs && digitsVal cs ≤ hi

/-- Model of `datetime.strptime(s, "%Y-%m-%d")`: `some (y, m, d)` on success. -/
def strptimeYMD (s : String) : Option (Nat × Nat × Nat) :=
  match splitOnDash s.data with
  | [y, m, d] =>
    if matchYearField y && matchNumField m 12 && matchNumField d 31 then
      let yn := digitsVal y
      let mn := digitsVal m
      let dn := digitsVal d
      if 1 ≤ yn && dn ≤ daysInMonth yn mn then some (yn, mn, dn) else none
    else none
  | _ => none

/-- The date strings accepted by `strptime(s, "%Y-%m-%d")`. -/
def validDateYMD (s : String) : Bool :=
  (strptimeYMD s).isSome

/-! ### Model of Python `float(s)` on finite numeric literals

`float` strips whitespace, then accepts an optional sign, a digit string
with an optional fractional part, and an optional decimal exponent.
(`inf`/`nan` literals are outside this model: amounts are exact rationals.)
Scanning (strings to digit groups) is separated from the rational
interpretation so that concrete runs are decidable. -/

structure FloatLit where
  sgn : Bool
  ip : Nat
  fp : Nat
  fpLen : Nat
  esgn : Bool
  eexp : Nat
deriving DecidableEq, Repr

def scanSign (cs : List Char) : Bool × List Char :=
  match cs with
  | [] => (true, [])
  | c :: r => if c = '+' then (true, r) else if c = '-' then (false, r) else (true, cs)

def scanExp (cs : List Char) : Option (Bool × Nat) :=
  let (es, r1) := scanSign cs
  if (!r1.isEmpty) && allDigits r1 then some (es, digitsVal r1) else none

/-- Scanner for Python float literals: sign, integer digits, fractional
digits (with their count), exponent sign and exponent digits. -/
def pyFloatScan (s : String) : Option FloatLit :=
  let cs := stripChars s.data
  let (sg, cs1) := scanSign cs
  let ip := cs1.takeWhile Char.isDigit
  let cs2 := cs1.dropWhile Char.isDigit
  let (fp, cs3) :=
    match cs2 with
    | [] => ([], [])
    | c :: r =>
      if c = '.' then (r.takeWhile Char.isDigit, r.dropWhile Char.isDigit) else ([], cs2)
  if ip.length + fp.length = 0 then none
  else
    match cs3 with
    | [] => some ⟨sg, digitsVal ip, digitsVal fp, fp.length, true, 0⟩
    | c :: r =>
      if c = 'e' || c = 'E' then
        match scanExp r with
        | some (es, ev) => some ⟨sg, digitsVal ip, digitsVal fp, fp.length, es, ev⟩
        | none => none
      else none

/-- The rational value of a scanned float literal. -/
def litVal (f : FloatLit) : Rat :=
  let m : Rat := (f.ip : Rat) + (f.fp : Rat) / (10 : Rat) ^ f.fpLen
  let sm : Rat := if f.sgn then m else -m
  if f.esgn then sm * (10 : Rat) ^ f.eexp else sm / (10 : Rat) ^ f.eexp

/-- Model of Python `float(s)` for finite decimal literals. -/
def pyFloatParse (s : String) : Option Rat :=
  (pyFloatScan s).map litVal

/-! ### Model of Python `round(x, 2)` (round half to even) -/

def roundHalfEven (q : Rat) : Int :=
  let f : Int := ⌊q⌋
  let r : Rat := q - (f : Rat)
  if r < 1 / 2 then f
  else if 1 / 2 < r then f + 1
  else if f % 2 = 0 then f else f + 1

/-- Model of `round(x, 2)`. -/
def round2 (q : Rat) : Rat :=
  (roundHalfEven (q * 100) : Rat) / 100

/-! ### The record type of `personal_expense_tracker.py`

A stored expense is the dict `{"amount": float, "category": str, "date": str}`. -/

structure Expense where
  amount : Rat
  category : String
  date : String
deriving DecidableEq, Repr

/-- The Validation module's checks on a stored record: the category is
non-empty and already trimmed, and the date passes `strptime "%Y-%m-%d"`.
(The amount check — `float(...)` parses to a finite number — is vacuous for
records already modelled with a rational amount.) -/
def validExpense (e : Expense) : Bool :=
  (pyStrip e.category == e.category) && (e.category != "") && validDateYMD e.date

/-! ### JSON file model for `expenses.json` -/

inductive JVal where
  | jnum (q : Rat)
  | jstr (s : String)
  | jbool (b : Bool)
  | jnull
deriving DecidableEq

/-- The fields of a JSON object that `load_expenses` reads via `e.get(...)`. -/
structure JObj where
  amount : Option JVal
  category : Option JVal
  date : Option JVal
deriving DecidableEq

/-- A member of the top-level JSON list: a dict, or something else. -/
inductive JItem where
  | obj (o : JObj)
  | nonObj
deriving DecidableEq

/-- The observable states of the data file. -/
inductive FileState where
  | absent
  | unreadable
  | notList
  | parsed (items : List JItem)
deriving DecidableEq

/-- Model of `float(v)` applied to a decoded JSON value. -/
def pyFloatVal : Option JVal → Option Rat
  | some (JVal.jnum q) => some q
  | some (JVal.jstr s) => pyFloatParse s
  | some (JVal.jbool b) => some (if b then 1 else 0)
  | _ => none

/-- The body of the `for e in data` loop of `load_expenses`: parse the
amount, require a non-empty trimmed string category and a `strptime`-valid
string date, and emit the normalized record; otherwise skip the entry. -/
def cleanEntry : JItem → Option Expense
  | JItem.nonObj => none
  | JItem.obj o =>
    match pyFloatVal o.amount with
    | none => none
    | some amt =>
      match o.category with
      | some (JVal.jstr c) =>
        if pyStrip c = "" then none
        else
          match o.date with
          | some (JVal.jstr d) =>
            if validDateYMD d then some ⟨amt, pyStrip c, d⟩ else none
          | _ => none
      | _ => none

/-- Model of `load_expenses` of `personal_expense_tracker.py`. -/
def load_expenses : FileState → List Expense
  | FileState.absent => []
  | FileState.unreadable => []
  | FileState.notList => []
  | FileState.parsed items => items.filterMap cleanEntry

/-- Serialization of one record by `json.dump`. -/
def serializeExpense (e : Expense) : JItem :=
  JItem.obj ⟨some (JVal.jnum e.amount), some (JVal.jstr e.category), some (JVal.jstr e.date)⟩

/-- Model of `save_expenses`: the file contents after a successful write. -/
def save_expenses (es : List Expense) : FileState :=
  FileState.parsed (es.map serializeExpense)

/-! ### Validation (`validate`), as performed inline by `add_expense` -/

inductive ValidationError where
  | invalidAmount
  | invalidCategory
  | invalidDate
deriving DecidableEq, Repr

/-- Model of `prompt_float`: strip, reject empty, parse with `float`. -/
def prompt_float (s : String) : Option Rat :=
  let raw := pyStrip s
  if raw = "" then none else pyFloatParse raw

/-- The validation sequence of `add_expense` (amount, then category, then
date), packaged as the spec's `validate(rawDate, rawCategory, rawAmount)`:
on success the normalized record (amount rounded to 2 decimals via
`round(_, 2)`, category and date trimmed). -/
def validate (rawDate rawCategory rawAmount : String) : Except ValidationError Expense :=
  match prompt_float rawAmount with
  | none => Except.error ValidationError.invalidAmount
  | some amt =>
    let cat := pyStrip rawCategory
    if cat = "" then Except.error ValidationError.invalidCategory
    else
      let ds := pyStrip rawDate
      if validDateYMD ds then Except.ok ⟨round2 amt, cat, ds⟩
      else Except.error ValidationError.invalidDate

example : validDateYMD "2025-02-30" = false := by decide
example : validDateYMD "2025-2-3" = true := by decide
example : validDateYMD "2024-02-29" = true := by decide
example : validDateYMD "2023-02-29" = false := by decide
example : pyFloatScan "10.5" = some ⟨true, 10, 5, 1, true, 0⟩ := by decide
example : pyFloatParse "abc" = none := by
  have h : pyFloatScan "abc" = none := by decide
  rw [pyFloatParse, h]
  rfl
example : round2 (10555 / 1000 : Rat) = (1056 / 100 : Rat) := by
  rw [round2, roundHalfEven]
  norm_num

/-! ### Store operations of `personal_expense_tracker.py`

Each mutating operation works on the in-memory list; on success it calls
`save_expenses` on the full sequence. A ghost field `saves` records the
argument of every `save_expenses` call. -/

/-- Model of `add_expense` (interactive inputs passed as parameters):
some new list on success, `none` when a validation step rejected.
`useToday` models answering `y` (or empty) to the date prompt; `today` is
the string produced by `datetime.today().strftime("%Y-%m-%d")`. -/
def add_expense (expenses : List Expense) (amtRaw catRaw : String)
    (useToday : Bool) (today dateRaw : String) : Option (List Expense) :=
  match prompt_float amtRaw with
  | none => none
  | some amount =>
    if pyStrip catRaw = "" then none
    else if useToday then
      some (expenses ++ [{ amount := round2 amount, category := pyStrip catRaw, date := today }])
    else if validDateYMD (pyStrip dateRaw) then
      some (expenses ++
        [{ amount := round2 amount, category := pyStrip catRaw, date := pyStrip dateRaw }])
    else none

/-- One field update of `edit_expense`: amount (kept on parse failure). -/
def editAmount (e : Expense) (newAmt : String) : Expense :=
  if pyStrip newAmt = "" then e
  else
    match pyFloatParse (pyStrip newAmt) with
    | some q => { e with amount := round2 q }
    | none => e

/-- One field update of `edit_expense`: category (kept when blank). -/
def editCategory (e : Expense) (newCat : String) : Expense :=
  if pyStrip newCat = "" then e else { e with category := pyStrip newCat }

/-- One field update of `edit_expense`: date (kept when blank or invalid). -/
def editDate (e : Expense) (newDate : String) : Expense :=
  if pyStrip newDate = "" then e
  else if validDateYMD (pyStrip newDate) then { e with date := pyStrip newDate } else e

/-- Model of `edit_expense` of `personal_expense_tracker.py` (1-based
index; `0` cancels). Returns the new list and whether `save_expenses`
was called. -/
def edit_expense (expenses : List Expense) (idx : Int) (newAmt newCat newDate : String) :
    List Expense × Bool :=
  if expenses.isEmpty then (expenses, false)
  else if idx = 0 then (expenses, false)
  else if 1 ≤ idx ∧ idx ≤ expenses.length then
    match expenses[(idx - 1).toNat]? with
    | none => (expenses, false)
    | some e =>
      (expenses.set (idx - 1).toNat
        (editDate (editCategory (editAmount e newAmt) newCat) newDate), true)
  else (expenses, false)

/-- Model of `delete_expense` of `personal_expense_tracker.py` (1-based
index; `0` cancels). Returns the new list and whether `save_expenses`
was called. -/
def delete_expense (expenses : List Expense) (idx : Int) : List Expense × Bool :=
  if expenses.isEmpty then (expenses, false)
  else if idx = 0 then (expenses, false)
  else if 1 ≤ idx ∧ idx ≤ expenses.length then ((expenses.eraseIdx (idx - 1).toNat), true)
  else (expenses, false)

/-- The in-memory sequence plus the ghost trace of `save_expenses` calls. -/
structure PyState where
  expenses : List Expense
  saves : List (List Expense)
deriving DecidableEq

def pyAdd (s : PyState) (amtRaw catRaw : String) (useToday : Bool) (today dateRaw : String) :
    PyState :=
  match add_expense s.expenses amtRaw catRaw useToday today dateRaw with
  | none => s
  | some es => ⟨es, s.saves ++ [es]⟩

def pyEdit (s : PyState) (idx : Int) (newAmt newCat newDate : String) : PyState :=
  let r := edit_expense s.expenses idx newAmt newCat newDate
  if r.2 then ⟨r.1, s.saves ++ [r.1]⟩ else ⟨r.1, s.saves⟩

def pyDelete (s : PyState) (idx : Int) : PyState :=
  let r := delete_expense s.expenses idx
  if r.2 then ⟨r.1, s.saves ++ [r.1]⟩ else ⟨r.1, s.saves⟩

/-- Reachable states of the `personal_expense_tracker.py` store: start by
loading any file, then any sequence of add/edit/delete with arbitrary
interactive inputs. The side condition on `add` records that
`datetime.today().strftime("%Y-%m-%d")` always yields a real date. -/
inductive PyReach : PyState → Prop where
  | start (f : FileState) : PyReach ⟨load_expenses f, []⟩
  | add (s : PyState) (amtRaw catRaw : String) (useToday : Bool) (today dateRaw : String)
      (hT : validDateYMD today = true) (hs : PyReach s) :
      PyReach (pyAdd s amtRaw catRaw useToday today dateRaw)
  | edit (s : PyState) (idx : Int) (newAmt newCat newDate : String) (hs : PyReach s) :
      PyReach (pyEdit s idx newAmt newCat newDate)
  | delete (s : PyState) (idx : Int) (hs : PyReach s) :
      PyReach (pyDelete s idx)

/-! ### Aggregation functions of `view_summary` / `show_visual_summary` -/

/-- Summary option 1: `sum(e["amount"] for e in expenses if
e["category"].lower() == category.lower())`. -/
def filterByCategory (expenses : List Expense) (category : String) : Rat :=
  ((expenses.filter (fun e => pyLower e.category == pyLower category)).map
    (fun e => e.amount)).sum

/-- Summary option 2: `sum(e["amount"] for e in expenses)`. -/
def totalOverall (expenses : List Expense) : Rat :=
  (expenses.map (fun e => e.amount)).sum

/-- One step of the Python dict accumulation `d[k] = d.get(k, 0) + v`:
the dict is an insertion-ordered association list. -/
def upsert (m : List (String × Rat)) (k : String) (v : Rat) : List (String × Rat) :=
  match m with
  | [] => [(k, v)]
  | (k0, v0) :: rest => if k0 = k then (k0, v0 + v) :: rest else (k0, v0) :: upsert rest k v

/-- The dict built by `for e in expenses: d[key e] += e["amount"]`. -/
def groupSum (key : Expense → String) (expenses : List Expense) : List (String × Rat) :=
  expenses.foldl (fun m e => upsert m (key e) e.amount) []

/-- Lexicographic comparison of character lists by code point, like
Python's string comparison. -/
def lexLe (a b : List Char) : Bool :=
  match a, b with
  | [], _ => true
  | _ :: _, [] => false
  | x :: xs, y :: ys =>
    if x.toNat < y.toNat then true
    else if y.toNat < x.toNat then false
    else lexLe xs ys

def strLeb (a b : String) : Bool :=
  lexLe a.data b.data

def keyLe (a b : String × Rat) : Bool :=
  strLeb a.1 b.1

/-- Presentation of a dict with `for k in sorted(d.keys())`. -/
def sortByKey (m : List (String × Rat)) : List (String × Rat) :=
  m.mergeSort keyLe

/-- Summary option 3: daily totals, keys sorted ascending. -/
def dailyTotals (expenses : List Expense) : List (String × Rat) :=
  sortByKey (groupSum (fun e => e.date) expenses)

/-- The month of a record: `e["date"][:7]`. -/
def monthKey (e : Expense) : String :=
  String.mk (e.date.data.take 7)

/-- Summary option 4: monthly totals, keys sorted ascending. -/
def monthlyTotals (expenses : List Expense) : List (String × Rat) :=
  sortByKey (groupSum monthKey expenses)

/-- The per-category dict of `show_visual_summary` (pie chart). -/
def totalByCategory (expenses : List Expense) : List (String × Rat) :=
  groupSum (fun e => e.category) expenses

/-- Sum of the values of an accumulated dict. -/
def valuesSum (m : List (String × Rat)) : Rat :=
  (m.map (fun kv => kv.2)).sum

/-- Lookup with default 0 in an accumulated dict. -/
def lookupD (m : List (String × Rat)) (k : String) : Rat :=
  match m with
  | [] => 0
  | (k0, v0) :: rest => if k0 = k then v0 else lookupD rest k

/-- The sum of the amounts of the records of `es` whose key is `k`. -/
def fiberSum (key : Expense → String) (k : String) (es : List Expense) : Rat :=
  ((es.filter (fun e => key e == k)).map (fun e => e.amount)).sum

/-- Modelled from the spec's words: the date string matches the strict
`YYYY-MM-DD` shape (four digits, dash, two digits, dash, two digits) and
denotes a real calendar date of that year/month/day. -/
def specMatchesYYYYMMDD (s : String) : Bool :=
  match s.data with
  | [y1, y2, y3, y4, h1, m1, m2, h2, d1, d2] =>
    y1.isDigit && y2.isDigit && y3.isDigit && y4.isDigit
      && h1 == '-' && h2 == '-'
      && m1.isDigit && m2.isDigit && d1.isDigit && d2.isDigit
      && 1 ≤ digitsVal [y1, y2, y3, y4]
      && 1 ≤ digitsVal [m1, m2] && digitsVal [m1, m2] ≤ 12
      && 1 ≤ digitsVal [d1, d2]
      && digitsVal [d1, d2] ≤ daysInMonth (digitsVal [y1, y2, y3, y4]) (digitsVal [m1, m2])
  | _ => false

/-! ### The enhanced variant (`src/unnamed/part_000`)

Its records are dicts with capitalized keys and a description; its
`add_expense`/`edit_expense`/`delete_expense` take the new field values as
arguments and perform no validation. Every operation re-loads the list
from the file and saves it back, so the state is the decoded file plus the
ghost trace of `save_expenses` calls. -/

structure Expense0 where
  Date : String
  Category : String
  Amount : Rat
  Description : String
deriving DecidableEq, Repr

/-- The observable states of the enhanced variant's data file. -/
inductive File0 where
  | absent
  | unreadable
  | notList
  | parsed (items : List Expense0)
deriving DecidableEq

/-- Model of the enhanced variant's `load_expenses`: no per-entry
validation, an unreadable or non-list file yields `[]`. -/
def load_expenses0 : File0 → List Expense0
  | File0.absent => []
  | File0.unreadable => []
  | File0.notList => []
  | File0.parsed items => items

structure P0State where
  file : List Expense0
  saves : List (List Expense0)
deriving DecidableEq

/-- Model of the enhanced variant's `add_expense(date, category, amount,
description)`: append unconditionally and save. -/
def add_expense0 (s : P0State) (date category : String) (amount : Rat)
    (description : String) : P0State :=
  let expenses := s.file ++ [⟨date, category, amount, description⟩]
  ⟨expenses, s.saves ++ [expenses]⟩

/-- Model of the enhanced variant's `edit_expense(index, ...) -> bool`
(0-based index, full-record replace, no validation). -/
def edit_expense0 (s : P0State) (index : Int) (date category : String) (amount : Rat)
    (description : String) : P0State × Bool :=
  if 0 ≤ index ∧ index < s.file.length then
    let expenses := s.file.set index.toNat ⟨date, category, amount, description⟩
    (⟨expenses, s.saves ++ [expenses]⟩, true)
  else (s, false)

/-- Model of the enhanced variant's `delete_expense(index) -> bool`. -/
def delete_expense0 (s : P0State) (index : Int) : P0State × Bool :=
  if 0 ≤ index ∧ index < s.file.length then
    let expenses := s.file.eraseIdx index.toNat
    (⟨expenses, s.saves ++ [expenses]⟩, true)
  else (s, false)

/-- Reachable states of the enhanced variant's store. -/
inductive P0Reach : P0State → Prop where
  | start (f : File0) : P0Reach ⟨load_expenses0 f, []⟩
  | add (s : P0State) (date category : String) (amount : Rat) (description : String)
      (hs : P0Reach s) : P0Reach (add_expense0 s date category amount description)
  | edit (s : P0State) (index : Int) (date category : String) (amount : Rat)
      (description : String) (hs : P0Reach s) :
      P0Reach (edit_expense0 s index date category amount description).1
  | delete (s : P0State) (index : Int) (hs : P0Reach s) :
      P0Reach (delete_expense0 s index).1

/-- The Validation module's checks applied to an enhanced-variant record. -/
def validExpense0 (e : Expense0) : Bool :=
  (pyStrip e.Category == e.Category) && (e.Category != "") && validDateYMD e.Date

/-! ### Basic lemmas about the string primitives -/

theorem dropWhile_dropWhile (p : Char → Bool) (l : List Char) :
    (l.dropWhile p).dropWhile p = l.dropWhile p := by
  cases h : l.dropWhile p with
  | nil => rfl
  | cons c cs =>
    have hc : p c = false := by
      have hh := List.head?_dropWhile_not p l
      rw [h] at hh
      simpa using hh
    simp [hc]

theorem stripChars_idem (cs : List Char) : stripChars (stripChars cs) = stripChars cs := by
  unfold stripChars
  set a := cs.dropWhile isPySpace with ha
  set b := a.reverse.dropWhile isPySpace with hb
  have hA : b.dropWhile isPySpace = b := by
    rw [hb]
    exact dropWhile_dropWhile _ _
  have h1 : b.reverse.dropWhile isPySpace = b.reverse := by
    cases hbr : b.reverse with
    | nil => simp
    | cons c cs2 =>
      have hhead : b.reverse.head? = some c := by rw [hbr]; rfl
      have hgl : b.getLast? = some c := by rwa [List.head?_reverse] at hhead
      have hsplit : a.reverse = a.reverse.takeWhile isPySpace ++ b := by
        rw [hb]
        exact (List.takeWhile_append_dropWhile isPySpace a.reverse).symm
      have h2 : a.reverse.getLast? = some c := by
        rw [hsplit, List.getLast?_append, hgl]
        rfl
      have h3 : a.head? = some c := by rwa [List.getLast?_reverse] at h2
      have h4 : isPySpace c = false := by
        have hh := List.head?_dropWhile_not isPySpace cs
        rw [← ha] at hh
        rw [h3] at hh
        simpa using hh
      simp [h4]
  rw [h1, List.reverse_reverse, hA]

theorem pyStrip_idem (s : String) : pyStrip (pyStrip s) = pyStrip s := by
  unfold pyStrip
  rw [stripChars_idem]

/-! ### Records produced by `cleanEntry` and by validation are valid -/

theorem cleanEntry_valid (it : JItem) (e : Expense) (h : cleanEntry it = some e) :
    validExpense e = true := by
  unfold cleanEntry at h
  repeat' split at h
  any_goals exact Option.noConfusion h
  injection h with h2
  subst h2
  unfold validExpense
  simp only [Bool.and_eq_true, beq_iff_eq, bne_iff_ne, ne_eq]
  exact ⟨⟨pyStrip_idem _, by assumption⟩, by assumption⟩

theorem load_expenses_valid (f : FileState) :
    ∀ e ∈ load_expenses f, validExpense e = true := by
  intro e he
  cases f with
  | absent => exact absurd he (by simp [load_expenses])
  | unreadable => exact absurd he (by simp [load_expenses])
  | notList => exact absurd he (by simp [load_expenses])
  | parsed items =>
    unfold load_expenses at he
    obtain ⟨it, _, hit⟩ := List.mem_filterMap.mp he
    exact cleanEntry_valid it e hit

theorem cleanEntry_serialize (e : Expense) (h : validExpense e = true) :
    cleanEntry (serializeExpense e) = some e := by
  unfold validExpense at h
  simp only [Bool.and_eq_true, beq_iff_eq, bne_iff_ne, ne_eq] at h
  obtain ⟨⟨h1, h2⟩, h3⟩ := h
  show cleanEntry (JItem.obj
    ⟨some (JVal.jnum e.amount), some (JVal.jstr e.category), some (JVal.jstr e.date)⟩) = some e
  have hc : ¬ pyStrip e.category = "" := by rw [h1]; exact h2
  simp only [cleanEntry, pyFloatVal, if_neg hc, if_pos h3, h1]
  rw [if_neg h2]

theorem load_save_roundtrip (es : List Expense) (h : ∀ e ∈ es, validExpense e = true) :
    load_expenses (save_expenses es) = es := by
  induction es with
  | nil => rfl
  | cons e es ih =>
    have he := h e (List.mem_cons_self e es)
    have hes : ∀ x ∈ es, validExpense x = true := fun x hx => h x (List.mem_cons_of_mem e hx)
    have htail := ih hes
    simp only [save_expenses, load_expenses, List.map_cons, List.filterMap_cons,
      cleanEntry_serialize e he] at htail ⊢
    rw [htail]

/-! ### The validation invariant of the `personal_expense_tracker.py` store -/

theorem add_expense_mem (es : List Expense) (a c : String) (u : Bool) (t d : String)
    (hT : validDateYMD t = true) (es2 : List Expense)
    (h : add_expense es a c u t d = some es2) (x : Expense) (hx : x ∈ es2) :
    x ∈ es ∨ validExpense x = true := by
  unfold add_expense at h
  repeat' split at h
  any_goals exact Option.noConfusion h
  · injection h with h2
    subst h2
    rcases List.mem_append.mp hx with h3 | h3
    · exact Or.inl h3
    · refine Or.inr ?_
      have hx2 : x = ⟨round2 _, pyStrip c, t⟩ := List.mem_singleton.mp h3
      subst hx2
      unfold validExpense
      simp only [Bool.and_eq_true, beq_iff_eq, bne_iff_ne, ne_eq]
      exact ⟨⟨pyStrip_idem c, by assumption⟩, hT⟩
  · injection h with h2
    subst h2
    rcases List.mem_append.mp hx with h3 | h3
    · exact Or.inl h3
    · refine Or.inr ?_
      have hx2 : x = ⟨round2 _, pyStrip c, pyStrip d⟩ := List.mem_singleton.mp h3
      subst hx2
      unfold validExpense
      simp only [Bool.and_eq_true, beq_iff_eq, bne_iff_ne, ne_eq]
      exact ⟨⟨pyStrip_idem c, by assumption⟩, by assumption⟩

theorem editAmount_valid (e : Expense) (s : String) (h : validExpense e = true) :
    validExpense (editAmount e s) = true := by
  unfold editAmount
  repeat' split
  all_goals exact h

theorem editCategory_valid (e : Expense) (s : String) (h : validExpense e = true) :
    validExpense (editCategory e s) = true := by
  unfold editCategory
  split
  · exact h
  · unfold validExpense at h ⊢
    simp only [Bool.and_eq_true, beq_iff_eq, bne_iff_ne, ne_eq] at h ⊢
    exact ⟨⟨pyStrip_idem s, by assumption⟩, h.2⟩

theorem editDate_valid (e : Expense) (s : String) (h : validExpense e = true)
    : validExpense (editDate e s) = true := by
  unfold editDate
  repeat' split
  any_goals exact h
  unfold validExpense at h ⊢
  simp only [Bool.and_eq_true, beq_iff_eq, bne_iff_ne, ne_eq] at h ⊢
  exact ⟨h.1, by assumption⟩

theorem edit_expense_valid (es : List Expense) (idx : Int) (a c d : String)
    (h : ∀ e ∈ es, validExpense e = true) :
    ∀ x ∈ (edit_expense es idx a c d).1, validExpense x = true := by
  unfold edit_expense
  repeat' split
  any_goals exact h
  intro x hx
  rcases List.mem_or_eq_of_mem_set hx with h1 | rfl
  · exact h x h1
  · rename_i e he
    exact editDate_valid _ _ (editCategory_valid _ _ (editAmount_valid _ _
      (h e (List.getElem?_mem he))))

theorem delete_expense_valid (es : List Expense) (idx : Int)
    (h : ∀ e ∈ es, validExpense e = true) :
    ∀ x ∈ (delete_expense es idx).1, validExpense x = true := by
  unfold delete_expense
  repeat' split
  any_goals exact h
  intro x hx
  exact h x ((List.eraseIdx_sublist es (idx - 1).toNat).subset hx)

/-- Every reachable state of the `personal_expense_tracker.py` store holds
only validator-passing records, and every list ever passed to
`save_expenses` consists of validator-passing records. -/
theorem pyReach_valid (s : PyState) (h : PyReach s) :
    (∀ e ∈ s.expenses, validExpense e = true) ∧
    (∀ l ∈ s.saves, ∀ e ∈ l, validExpense e = true) := by
  induction h with
  | start f => exact ⟨load_expenses_valid f, by simp⟩
  | add s a c u t d hT hs ih =>
    obtain ⟨ih1, ih2⟩ := ih
    unfold pyAdd
    cases hadd : add_expense s.expenses a c u t d with
    | none => exact ⟨ih1, ih2⟩
    | some es2 =>
      have hval : ∀ x ∈ es2, validExpense x = true := by
        intro x hx
        rcases add_expense_mem s.expenses a c u t d hT es2 hadd x hx with h1 | h2
        · exact ih1 x h1
        · exact h2
      refine ⟨hval, ?_⟩
      intro l hl
      rcases List.mem_append.mp hl with hl | hl
      · exact ih2 l hl
      · rw [List.mem_singleton.mp hl]
        exact hval
  | edit s idx a c d hs ih =>
    obtain ⟨ih1, ih2⟩ := ih
    have hval := edit_expense_valid s.expenses idx a c d ih1
    simp only [pyEdit]
    split
    · refine ⟨hval, ?_⟩
      intro l hl
      rcases List.mem_append.mp hl with hl | hl
      · exact ih2 l hl
      · rw [List.mem_singleton.mp hl]
        exact hval
    · exact ⟨hval, ih2⟩
  | delete s idx hs ih =>
    obtain ⟨ih1, ih2⟩ := ih
    have hval := delete_expense_valid s.expenses idx ih1
    simp only [pyDelete]
    split
    · refine ⟨hval, ?_⟩
      intro l hl
      rcases List.mem_append.mp hl with hl | hl
      · exact ih2 l hl
      · rw [List.mem_singleton.mp hl]
        exact hval
    · exact ⟨hval, ih2⟩

/-! ### Aggregation lemmas -/

theorem lexLe_total (a b : List Char) : lexLe a b || lexLe b a := by
  induction a generalizing b with
  | nil => simp [lexLe]
  | cons x xs ih =>
    cases b with
    | nil => simp [lexLe]
    | cons y ys =>
      simp only [lexLe]
      by_cases h1 : x.toNat < y.toNat
      · simp [h1]
      · by_cases h2 : y.toNat < x.toNat
        · simp [h1, h2]
        · simpa [h1, h2] using ih ys

theorem lexLe_trans (a b c : List Char) (h1 : lexLe a b = true) (h2 : lexLe b c = true) :
    lexLe a c = true := by
  induction a generalizing b c with
  | nil => simp [lexLe]
  | cons x xs ih =>
    cases b with
    | nil => simp [lexLe] at h1
    | cons y ys =>
      cases c with
      | nil => simp [lexLe] at h2
      | cons z zs =>
        simp only [lexLe] at h1 h2 ⊢
        by_cases hxy : x.toNat < y.toNat
        · by_cases hyz : y.toNat < z.toNat
          · rw [if_pos (by omega)]
          · by_cases hzy : z.toNat < y.toNat
            · rw [if_neg hyz, if_pos hzy] at h2
              exact absurd h2 (by simp)
            · rw [if_pos (by omega)]
        · by_cases hyx : y.toNat < x.toNat
          · rw [if_neg hxy, if_pos hyx] at h1
            exact absurd h1 (by simp)
          · rw [if_neg hxy, if_neg hyx] at h1
            by_cases hyz : y.toNat < z.toNat
            · rw [if_pos (by omega)]
            · by_cases hzy : z.toNat < y.toNat
              · rw [if_neg hyz, if_pos hzy] at h2
                exact absurd h2 (by simp)
              · rw [if_neg hyz, if_neg hzy] at h2
                rw [if_neg (by omega : ¬ x.toNat < z.toNat),
                  if_neg (by omega : ¬ z.toNat < x.toNat)]
                exact ih ys zs h1 h2


theorem upsert_valuesSum (m : List (String × Rat)) (k : String) (v : Rat) :
    valuesSum (upsert m k v) = valuesSum m + v := by
  induction m with
  | nil => simp [upsert, valuesSum]
  | cons kv rest ih =>
    obtain ⟨k0, v0⟩ := kv
    unfold upsert
    split
    · simp only [valuesSum, List.map_cons, List.sum_cons]
      ring
    · simp only [valuesSum, List.map_cons, List.sum_cons] at ih ⊢
      rw [ih]
      ring

theorem lookupD_upsert (m : List (String × Rat)) (k0 k : String) (v : Rat) :
    lookupD (upsert m k0 v) k = lookupD m k + (if k0 = k then v else 0) := by
  induction m with
  | nil =>
    simp only [upsert, lookupD]
    split
    · simp
    · simp
  | cons kv rest ih =>
    obtain ⟨k1, v1⟩ := kv
    unfold upsert
    by_cases h10 : k1 = k0
    · rw [if_pos h10]
      subst h10
      simp only [lookupD]
      by_cases h1k : k1 = k
      · simp [h1k]
      · simp [h1k]
    · rw [if_neg h10]
      simp only [lookupD]
      by_cases h1k : k1 = k
      · have hk0 : ¬ k0 = k := fun hh => h10 (h1k.trans hh.symm)
        simp [h1k, hk0]
      · simp [h1k, ih]

theorem upsert_keys (m : List (String × Rat)) (k0 : String) (v : Rat) :
    (upsert m k0 v).map Prod.fst =
      if k0 ∈ m.map Prod.fst then m.map Prod.fst else m.map Prod.fst ++ [k0] := by
  induction m with
  | nil => simp [upsert]
  | cons kv rest ih =>
    obtain ⟨k1, v1⟩ := kv
    unfold upsert
    by_cases h10 : k1 = k0
    · rw [if_pos h10]
      subst h10
      simp
    · rw [if_neg h10]
      simp only [List.map_cons, List.mem_cons]
      rw [ih]
      by_cases hmem : k0 ∈ rest.map Prod.fst
      · rw [if_pos hmem, if_pos (Or.inr hmem)]
      · rw [if_neg hmem, if_neg (by rintro (h | h); exact h10 h.symm; exact hmem h)]
        simp

theorem upsert_keys_nodup (m : List (String × Rat)) (k0 : String) (v : Rat)
    (h : (m.map Prod.fst).Nodup) : ((upsert m k0 v).map Prod.fst).Nodup := by
  rw [upsert_keys]
  split
  · exact h
  · rename_i hmem
    simp only [List.nodup_append, List.nodup_singleton]
    exact ⟨h, trivial, by simpa using hmem⟩

theorem groupSum_valuesSum_aux (key : Expense → String) (es : List Expense)
    (acc : List (String × Rat)) :
    valuesSum (es.foldl (fun m e => upsert m (key e) e.amount) acc)
      = valuesSum acc + totalOverall es := by
  induction es generalizing acc with
  | nil => simp [totalOverall, valuesSum]
  | cons e es ih =>
    simp only [List.foldl_cons]
    rw [ih, upsert_valuesSum]
    simp only [totalOverall, List.map_cons, List.sum_cons]
    ring

theorem groupSum_valuesSum (key : Expense → String) (es : List Expense) :
    valuesSum (groupSum key es) = totalOverall es := by
  unfold groupSum
  rw [groupSum_valuesSum_aux]
  simp [valuesSum]

theorem lookupD_groupSum_aux (key : Expense → String) (es : List Expense)
    (acc : List (String × Rat)) (k : String) :
    lookupD (es.foldl (fun m e => upsert m (key e) e.amount) acc) k
      = lookupD acc k + fiberSum key k es := by
  induction es generalizing acc with
  | nil => simp [fiberSum]
  | cons e es ih =>
    simp only [List.foldl_cons]
    rw [ih, lookupD_upsert]
    by_cases hk : key e = k
    · have hb : (key e == k) = true := beq_iff_eq.mpr hk
      simp only [fiberSum, List.filter_cons, hb, if_true, List.map_cons, List.sum_cons,
        if_pos hk]
      ring
    · have hb : (key e == k) = false := by simpa using hk
      simp only [fiberSum, List.filter_cons, hb, Bool.false_eq_true, if_false, if_neg hk]
      ring

theorem mem_upsert_keys (m : List (String × Rat)) (k0 : String) (v : Rat) (k : String) :
    k ∈ (upsert m k0 v).map Prod.fst ↔ k ∈ m.map Prod.fst ∨ k = k0 := by
  rw [upsert_keys]
  split
  · rename_i hmem
    constructor
    · exact Or.inl
    · rintro (h | rfl)
      · exact h
      · exact hmem
  · simp [List.mem_append]

theorem mem_groupSum_keys_aux (key : Expense → String) (es : List Expense)
    (acc : List (String × Rat)) (k : String) :
    k ∈ (es.foldl (fun m e => upsert m (key e) e.amount) acc).map Prod.fst ↔
      k ∈ acc.map Prod.fst ∨ ∃ e ∈ es, key e = k := by
  induction es generalizing acc with
  | nil => simp
  | cons e es ih =>
    simp only [List.foldl_cons]
    rw [ih, mem_upsert_keys]
    constructor
    · rintro ((h | h) | ⟨x, hx, hk⟩)
      · exact Or.inl h
      · exact Or.inr ⟨e, List.mem_cons_self e es, h.symm⟩
      · exact Or.inr ⟨x, List.mem_cons_of_mem e hx, hk⟩
    · rintro (h | ⟨x, hx, hk⟩)
      · exact Or.inl (Or.inl h)
      · rcases List.mem_cons.mp hx with rfl | hx2
        · exact Or.inl (Or.inr hk.symm)
        · exact Or.inr ⟨x, hx2, hk⟩

theorem mem_groupSum_keys (key : Expense → String) (es : List Expense) (k : String) :
    k ∈ (groupSum key es).map Prod.fst ↔ ∃ e ∈ es, key e = k := by
  unfold groupSum
  rw [mem_groupSum_keys_aux]
  simp

theorem groupSum_keys_nodup_aux (key : Expense → String) (es : List Expense)
    (acc : List (String × Rat)) (h : (acc.map Prod.fst).Nodup) :
    ((es.foldl (fun m e => upsert m (key e) e.amount) acc).map Prod.fst).Nodup := by
  induction es generalizing acc with
  | nil => exact h
  | cons e es ih =>
    simp only [List.foldl_cons]
    exact ih _ (upsert_keys_nodup acc (key e) e.amount h)

theorem groupSum_keys_nodup (key : Expense → String) (es : List Expense) :
    ((groupSum key es).map Prod.fst).Nodup :=
  groupSum_keys_nodup_aux key es [] (by simp)

theorem lookupD_of_mem (m : List (String × Rat)) (k : String) (v : Rat)
    (hnd : (m.map Prod.fst).Nodup) (h : (k, v) ∈ m) : lookupD m k = v := by
  induction m with
  | nil => exact absurd h (by simp)
  | cons kv rest ih =>
    obtain ⟨k1, v1⟩ := kv
    simp only [List.map_cons, List.nodup_cons] at hnd
    rcases List.mem_cons.mp h with h | h
    · injection h with hk hv
      subst hk
      subst hv
      simp [lookupD]
    · have hkmem : k ∈ rest.map Prod.fst := List.mem_map_of_mem Prod.fst h
      have hne : ¬ k1 = k := fun hh => hnd.1 (hh ▸ hkmem)
      simp only [lookupD, if_neg hne]
      exact ih hnd.2 h

theorem groupSum_mem_value (key : Expense → String) (es : List Expense)
    (kv : String × Rat) (h : kv ∈ groupSum key es) :
    kv.2 = fiberSum key kv.1 es := by
  obtain ⟨k, v⟩ := kv
  have h1 := lookupD_of_mem (groupSum key es) k v (groupSum_keys_nodup key es) h
  have h2 := lookupD_groupSum_aux key es [] k
  simp only [lookupD] at h2
  unfold groupSum at h1
  rw [h1] at h2
  simpa using h2

theorem sortByKey_valuesSum (m : List (String × Rat)) :
    valuesSum (sortByKey m) = valuesSum m := by
  unfold valuesSum sortByKey
  exact List.Perm.sum_eq (List.Perm.map _ (List.mergeSort_perm m _))

theorem mem_sortByKey (m : List (String × Rat)) (kv : String × Rat) :
    kv ∈ sortByKey m ↔ kv ∈ m := by
  unfold sortByKey
  exact List.mem_mergeSort

theorem sortByKey_keys_mem (m : List (String × Rat)) (k : String) :
    k ∈ (sortByKey m).map Prod.fst ↔ k ∈ m.map Prod.fst :=
  (List.Perm.map Prod.fst (List.mergeSort_perm m _)).mem_iff

theorem keyLe_trans (a b c : String × Rat) (hab : keyLe a b = true) (hbc : keyLe b c = true) :
    keyLe a c = true :=
  lexLe_trans _ _ _ hab hbc

theorem keyLe_total (a b : String × Rat) : keyLe a b || keyLe b a :=
  lexLe_total _ _

theorem sortByKey_sorted (m : List (String × Rat)) :
    ((sortByKey m).map Prod.fst).Pairwise (fun a b => strLeb a b = true) := by
  rw [List.pairwise_map]
  exact List.sorted_mergeSort keyLe_trans keyLe_total m

/-! ### Claim theorems -/

/-- Claim C1 (amended): in `personal_expense_tracker.py`, every reachable
state of the store (any sequence of load, add, edit, delete with arbitrary
interactive inputs) holds only records satisfying the Validation checks,
and every list passed to `save_expenses` consists of such records. (The
enhanced variant violates the original claim; see `C1_counterexample`.) -/
theorem C1_store_validation_invariant (s : PyState) (h : PyReach s) :
    (∀ e ∈ s.expenses, validExpense e = true) ∧
    (∀ l ∈ s.saves, ∀ e ∈ l, validExpense e = true) :=
  pyReach_valid s h

theorem C1_store_validation_invariant_witness :
    (∀ e ∈ (pyAdd ⟨[], []⟩ "10" "Food" false "2025-01-01" "2025-01-02").expenses,
        validExpense e = true) ∧
    (∀ l ∈ (pyAdd ⟨[], []⟩ "10" "Food" false "2025-01-01" "2025-01-02").saves,
        ∀ e ∈ l, validExpense e = true) :=
  C1_store_validation_invariant _
    (PyReach.add ⟨[], []⟩ "10" "Food" false "2025-01-01" "2025-01-02" (by decide)
      (PyReach.start FileState.absent))

/-- Claim C1 counterexample: in the enhanced variant (`src/unnamed/part_000`)
`add_expense` performs no validation, so from an empty file one `add` call
reaches a store state holding — and passing to `save_expenses` — a record
whose category is empty, which fails the Validation module's checks. -/
theorem C1_counterexample :
    P0Reach ⟨[⟨"2025-01-01", "", 5, ""⟩], [[⟨"2025-01-01", "", 5, ""⟩]]⟩
    ∧ validExpense0 ⟨"2025-01-01", "", 5, ""⟩ = false := by
  constructor
  · exact P0Reach.add ⟨load_expenses0 File0.absent, []⟩ "2025-01-01" "" 5 ""
      (P0Reach.start File0.absent)
  · decide

/-- Claim C2: saving a sequence of validator-passing records and then
loading the same file yields the saved sequence, element for element. -/
theorem C2_save_load_roundtrip (es : List Expense)
    (h : ∀ e ∈ es, validExpense e = true) :
    load_expenses (save_expenses es) = es :=
  load_save_roundtrip es h

theorem C2_save_load_roundtrip_witness :
    load_expenses (save_expenses
        [⟨10, "Food", "2025-01-02"⟩, ⟨3, "Transport", "2024-02-29"⟩])
      = [⟨10, "Food", "2025-01-02"⟩, ⟨3, "Transport", "2024-02-29"⟩] :=
  C2_save_load_roundtrip _ (by
    intro e he
    rcases List.mem_cons.mp he with rfl | he2
    · decide
    · rw [List.mem_singleton.mp he2]
      decide)

/-- Claim C3: the enhanced variant's `edit_expense(p, ...)`: for `p`
outside `[0, len)` it returns false and leaves the store (the in-memory
sequence, the persisted file, and the trace of saves) unchanged; for `p`
inside `[0, len)` it returns true, replaces exactly the record at `p`, and
persists the full new sequence. -/
theorem C3_editAt_bounds (s : P0State) (p : Int) (date cat : String) (amt : Rat)
    (desc : String) :
    (¬ (0 ≤ p ∧ p < s.file.length) →
      edit_expense0 s p date cat amt desc = (s, false))
    ∧ ((0 ≤ p ∧ p < s.file.length) →
      (edit_expense0 s p date cat amt desc).2 = true
      ∧ ((edit_expense0 s p date cat amt desc).1).file.length = s.file.length
      ∧ (∀ q : Nat, ((edit_expense0 s p date cat amt desc).1).file[q]? =
          if (q : Int) = p then some ⟨date, cat, amt, desc⟩ else s.file[q]?)
      ∧ ((edit_expense0 s p date cat amt desc).1).saves
          = s.saves ++ [((edit_expense0 s p date cat amt desc).1).file]) := by
  constructor
  · intro hout
    unfold edit_expense0
    rw [if_neg hout]
  · intro hin
    unfold edit_expense0
    rw [if_pos hin]
    refine ⟨rfl, by simp, ?_, rfl⟩
    intro q
    rw [List.getElem?_set]
    by_cases hq : (q : Int) = p
    · have h1 : p.toNat = q := by omega
      have h2 : p.toNat < s.file.length := by omega
      rw [if_pos hq, if_pos h1, if_pos (h1 ▸ h2)]
    · have h1 : ¬ p.toNat = q := by omega
      rw [if_neg hq, if_neg h1]

theorem C3_editAt_bounds_witness :
    (edit_expense0 ⟨[⟨"2025-01-02", "Food", 10, ""⟩], []⟩ 3 "2025-01-03" "Rent" 7 "x"
        = (⟨[⟨"2025-01-02", "Food", 10, ""⟩], []⟩, false))
    ∧ ((edit_expense0 ⟨[⟨"2025-01-02", "Food", 10, ""⟩], []⟩ 0 "2025-01-03" "Rent" 7 "x").2
        = true
      ∧ ((edit_expense0 ⟨[⟨"2025-01-02", "Food", 10, ""⟩], []⟩ 0 "2025-01-03" "Rent" 7
          "x").1).file.length = 1
      ∧ ((edit_expense0 ⟨[⟨"2025-01-02", "Food", 10, ""⟩], []⟩ 0 "2025-01-03" "Rent" 7
          "x").1).file[0]? = some ⟨"2025-01-03", "Rent", 7, "x"⟩) := by
  refine ⟨(C3_editAt_bounds ⟨[⟨"2025-01-02", "Food", 10, ""⟩], []⟩ 3 "2025-01-03" "Rent" 7
    "x").1 (by simp), ?_⟩
  have h := (C3_editAt_bounds ⟨[⟨"2025-01-02", "Food", 10, ""⟩], []⟩ 0 "2025-01-03" "Rent" 7
    "x").2 (by simp)
  refine ⟨h.1, h.2.1, ?_⟩
  have h3 := h.2.2.1 0
  simpa using h3

/-- Claim C4: the enhanced variant's `delete_expense(p)` on an in-bounds
position `p` removes exactly the record at `p`: the length drops by one,
records before `p` are unchanged, and the record at each position `q ≥ p`
afterwards is the old record at `q + 1`; the new sequence is persisted. -/
theorem C4_deleteAt_shifts (s : P0State) (p : Nat) (hp : p < s.file.length) :
    (delete_expense0 s (p : Int)).2 = true
    ∧ ((delete_expense0 s (p : Int)).1).file.length + 1 = s.file.length
    ∧ (∀ q : Nat, q < p → ((delete_expense0 s (p : Int)).1).file[q]? = s.file[q]?)
    ∧ (∀ q : Nat, p ≤ q → ((delete_expense0 s (p : Int)).1).file[q]? = s.file[q + 1]?)
    ∧ ((delete_expense0 s (p : Int)).1).saves
        = s.saves ++ [((delete_expense0 s (p : Int)).1).file] := by
  have hin : 0 ≤ (p : Int) ∧ (p : Int) < s.file.length := ⟨Int.ofNat_nonneg p, by omega⟩
  unfold delete_expense0
  rw [if_pos hin]
  have htn : ((p : Int)).toNat = p := Int.toNat_natCast p
  refine ⟨rfl, ?_, ?_, ?_, rfl⟩
  · simp only [htn]
    rw [List.length_eraseIdx_of_lt hp]
    omega
  · intro q hq
    simp only [htn]
    exact List.getElem?_eraseIdx_of_lt s.file p q hq
  · intro q hq
    simp only [htn]
    exact List.getElem?_eraseIdx_of_ge s.file p q hq

theorem C4_deleteAt_shifts_witness :
    (delete_expense0 ⟨[⟨"2025-01-02", "Food", 10, ""⟩, ⟨"2025-01-03", "Rent", 7, ""⟩], []⟩
        0).2 = true
    ∧ ((delete_expense0 ⟨[⟨"2025-01-02", "Food", 10, ""⟩, ⟨"2025-01-03", "Rent", 7, ""⟩], []⟩
        0).1).file.length + 1 = 2
    ∧ ((delete_expense0 ⟨[⟨"2025-01-02", "Food", 10, ""⟩, ⟨"2025-01-03", "Rent", 7, ""⟩], []⟩
        0).1).file[0]? = some ⟨"2025-01-03", "Rent", 7, ""⟩ := by
  have h := C4_deleteAt_shifts
    ⟨[⟨"2025-01-02", "Food", 10, ""⟩, ⟨"2025-01-03", "Rent", 7, ""⟩], []⟩ 0 (by simp)
  refine ⟨h.1, h.2.1, ?_⟩
  have h3 := h.2.2.2.1 0 (Nat.le_refl 0)
  simpa using h3

theorem prompt_float_ten : prompt_float "10" = some (litVal ⟨true, 10, 0, 0, true, 0⟩) := by
  simp only [prompt_float]
  rw [if_neg (by decide)]
  simp only [pyFloatParse]
  rw [show pyFloatScan (pyStrip "10") = some ⟨true, 10, 0, 0, true, 0⟩ from by decide]
  rfl

/-- Claim C5: when `validate` accepts the raw inputs, `add` appends exactly
the normalized record — amount `round(float(amount), 2)`, category and date
trimmed — and it is the last element of the resulting list. -/
theorem C5_validate_add_list (es : List Expense) (dateRaw catRaw amtRaw : String)
    (r : Expense) (h : validate dateRaw catRaw amtRaw = Except.ok r) :
    add_expense es amtRaw catRaw false "" dateRaw = some (es ++ [r])
    ∧ (es ++ [r]).getLast? = some r
    ∧ ∃ q, prompt_float amtRaw = some q
        ∧ r = ⟨round2 q, pyStrip catRaw, pyStrip dateRaw⟩ := by
  cases hq : prompt_float amtRaw with
  | none =>
    simp only [validate, hq] at h
    exact absurd h (by simp)
  | some q =>
    simp only [validate, hq] at h
    by_cases hc : pyStrip catRaw = ""
    · rw [if_pos hc] at h
      exact absurd h (by simp)
    · rw [if_neg hc] at h
      by_cases hd : validDateYMD (pyStrip dateRaw) = true
      · rw [if_pos hd] at h
        injection h with h2
        refine ⟨?_, List.getLast?_concat es, q, rfl, h2.symm⟩
        simp only [add_expense, hq, if_neg hc, Bool.false_eq_true, if_false, if_pos hd, h2]
      · rw [if_neg hd] at h
        exact absurd h (by simp)

theorem C5_validate_add_list_witness :
    add_expense [] "10" " Food " false "" "2025-01-02"
        = some ([] ++ [(⟨round2 (litVal ⟨true, 10, 0, 0, true, 0⟩), pyStrip " Food ",
            pyStrip "2025-01-02"⟩ : Expense)])
    ∧ (([] : List Expense) ++ [(⟨round2 (litVal ⟨true, 10, 0, 0, true, 0⟩),
        pyStrip " Food ", pyStrip "2025-01-02"⟩ : Expense)]).getLast?
        = some (⟨round2 (litVal ⟨true, 10, 0, 0, true, 0⟩), pyStrip " Food ",
            pyStrip "2025-01-02"⟩ : Expense)
    ∧ ∃ q, prompt_float "10" = some q
        ∧ (⟨round2 (litVal ⟨true, 10, 0, 0, true, 0⟩), pyStrip " Food ",
            pyStrip "2025-01-02"⟩ : Expense)
          = ⟨round2 q, pyStrip " Food ", pyStrip "2025-01-02"⟩ :=
  C5_validate_add_list [] "2025-01-02" " Food " "10" _ (by
    simp only [validate, prompt_float_ten]
    rw [if_neg (by decide), if_pos (by decide)])

/-- Claim C6 (amended): with a parseable amount and a non-empty trimmed
category, `validate` fails with `InvalidDate` exactly when the (trimmed)
date string is rejected by `strptime("%Y-%m-%d")` — which also accepts
one- or two-digit months and days, so acceptance is strictly wider than
the literal `YYYY-MM-DD` shape; in particular
`validate("2025-02-30", "Food", "10")` fails with `InvalidDate`. -/
theorem C6_invalidDate_iff (dateRaw catRaw amtRaw : String) (q : Rat)
    (hq : prompt_float amtRaw = some q) (hc : ¬ pyStrip catRaw = "") :
    (validate dateRaw catRaw amtRaw = Except.error ValidationError.invalidDate
      ↔ validDateYMD (pyStrip dateRaw) = false)
    ∧ validate "2025-02-30" "Food" "10" = Except.error ValidationError.invalidDate := by
  constructor
  · simp only [validate, hq, if_neg hc]
    by_cases hd : validDateYMD (pyStrip dateRaw) = true
    · rw [if_pos hd]
      simp [hd]
    · rw [if_neg hd]
      simp only [Bool.not_eq_true] at hd
      simp [hd]
  · simp only [validate, prompt_float_ten]
    rw [if_neg (by decide), if_neg (by decide)]

theorem C6_invalidDate_iff_witness :
    (validate "2025-13-01" "Food" "10" = Except.error ValidationError.invalidDate
      ↔ validDateYMD (pyStrip "2025-13-01") = false)
    ∧ validate "2025-02-30" "Food" "10" = Except.error ValidationError.invalidDate :=
  C6_invalidDate_iff "2025-13-01" "Food" "10" (litVal ⟨true, 10, 0, 0, true, 0⟩)
    prompt_float_ten (by decide)

/-- Claim C6 counterexample: the date string `2025-2-3` does not match the
strict `YYYY-MM-DD` shape, yet `strptime("%Y-%m-%d")` accepts it and
`validate` succeeds rather than failing with `InvalidDate`, so "fails with
InvalidDate exactly when the date does not match YYYY-MM-DD or is not a
real date" is false as stated. -/
theorem C6_counterexample :
    specMatchesYYYYMMDD "2025-2-3" = false
    ∧ validDateYMD "2025-2-3" = true
    ∧ validate "2025-2-3" "Food" "10" ≠ Except.error ValidationError.invalidDate := by
  refine ⟨by decide, by decide, ?_⟩
  have hok : validate "2025-2-3" "Food" "10"
      = Except.ok ⟨round2 (litVal ⟨true, 10, 0, 0, true, 0⟩), pyStrip "Food",
          pyStrip "2025-2-3"⟩ := by
    simp only [validate, prompt_float_ten]
    rw [if_neg (by decide), if_pos (by decide)]
  rw [hok]
  simp

/-- Claim C7: `monthlyTotals` groups the amounts by the first seven
characters of each record's date, its entries are exactly the month keys
occurring in the records with the full fiber sum as value, its keys are
sorted ascending, and on the four sample records it yields
`[("2025-09", 1500), ("2025-10", 820)]`. -/
theorem C7_monthlyTotals :
    (∀ es : List Expense,
      ((monthlyTotals es).map Prod.fst).Pairwise (fun a b => strLeb a b = true)
      ∧ (∀ kv ∈ monthlyTotals es, kv.2 = fiberSum monthKey kv.1 es)
      ∧ (∀ e ∈ es, monthKey e ∈ (monthlyTotals es).map Prod.fst))
    ∧ monthlyTotals
        [⟨1500, "Bills", "2025-09-28"⟩, ⟨200, "Food", "2025-10-01"⟩,
         ⟨120, "Transport", "2025-10-03"⟩, ⟨500, "Shopping", "2025-10-05"⟩]
      = [("2025-09", 1500), ("2025-10", 820)] := by
  constructor
  · intro es
    refine ⟨sortByKey_sorted _, ?_, ?_⟩
    · intro kv hkv
      exact groupSum_mem_value monthKey es kv ((mem_sortByKey _ kv).mp hkv)
    · intro e he
      unfold monthlyTotals
      rw [sortByKey_keys_mem, mem_groupSum_keys]
      exact ⟨e, he, rfl⟩
  · have hg : groupSum monthKey
        [⟨1500, "Bills", "2025-09-28"⟩, ⟨200, "Food", "2025-10-01"⟩,
         ⟨120, "Transport", "2025-10-03"⟩, ⟨500, "Shopping", "2025-10-05"⟩]
        = [("2025-09", (1500 : Rat)), ("2025-10", (200 : Rat) + 120 + 500)] := rfl
    show sortByKey _ = _
    rw [hg]
    unfold sortByKey
    rw [List.mergeSort_of_sorted (by
      refine List.Pairwise.cons ?_ (List.pairwise_singleton _ _)
      intro z hz
      rw [List.mem_singleton.mp hz]
      decide)]
    simp only [List.cons.injEq, Prod.mk.injEq, and_true, true_and]
    norm_num

theorem C7_monthlyTotals_witness :
    (("2025-09", (1500 : Rat)) : String × Rat).2
      = fiberSum monthKey (("2025-09", (1500 : Rat)) : String × Rat).1
          [⟨1500, "Bills", "2025-09-28"⟩, ⟨200, "Food", "2025-10-01"⟩,
           ⟨120, "Transport", "2025-10-03"⟩, ⟨500, "Shopping", "2025-10-05"⟩] :=
  (C7_monthlyTotals.1 _).2.1 ("2025-09", (1500 : Rat)) (by
    rw [C7_monthlyTotals.2]
    exact List.mem_cons_self _ _)

/-- Claim C8: `load_expenses` is lenient: an absent file yields `[]`; an
unreadable or non-list file yields `[]` without raising; in a parseable
list, an entry failing validation is dropped individually while the rest
are kept, and loading one well-formed record together with one whose
amount is the non-numeric string `"abc"` yields only the well-formed
record. -/
theorem C8_load_lenient :
    load_expenses FileState.absent = []
    ∧ load_expenses FileState.unreadable = []
    ∧ load_expenses FileState.notList = []
    ∧ (∀ (pre post : List JItem) (it : JItem), cleanEntry it = none →
        load_expenses (FileState.parsed (pre ++ it :: post))
          = load_expenses (FileState.parsed (pre ++ post)))
    ∧ (∀ (pre post : List JItem) (it : JItem) (e : Expense), cleanEntry it = some e →
        load_expenses (FileState.parsed (pre ++ it :: post))
          = load_expenses (FileState.parsed pre) ++ e :: load_expenses (FileState.parsed post))
    ∧ load_expenses (FileState.parsed
        [JItem.obj ⟨some (JVal.jnum 10), some (JVal.jstr "Food"),
          some (JVal.jstr "2025-01-02")⟩,
         JItem.obj ⟨some (JVal.jstr "abc"), some (JVal.jstr "Rent"),
          some (JVal.jstr "2025-01-03")⟩])
      = [⟨10, "Food", "2025-01-02"⟩] := by
  refine ⟨rfl, rfl, rfl, ?_, ?_, ?_⟩
  · intro pre post it h
    simp only [load_expenses, List.filterMap_append, List.filterMap_cons, h]
  · intro pre post it e h
    simp only [load_expenses, List.filterMap_append, List.filterMap_cons, h]
  · have h1 : cleanEntry (JItem.obj ⟨some (JVal.jnum 10), some (JVal.jstr "Food"),
        some (JVal.jstr "2025-01-02")⟩) = some ⟨10, "Food", "2025-01-02"⟩ := by
      simp only [cleanEntry, pyFloatVal]
      rw [if_neg (by decide), if_pos (by decide),
        show pyStrip "Food" = "Food" from by decide]
    have h2 : cleanEntry (JItem.obj ⟨some (JVal.jstr "abc"), some (JVal.jstr "Rent"),
        some (JVal.jstr "2025-01-03")⟩) = none := by
      simp only [cleanEntry, pyFloatVal]
      rw [show pyFloatParse "abc" = none from by
        rw [pyFloatParse, show pyFloatScan "abc" = none from by decide]
        rfl]
    simp only [load_expenses, List.filterMap_cons, h1, h2, List.filterMap_nil]

theorem C8_load_lenient_witness :
    load_expenses (FileState.parsed
        ([JItem.obj ⟨some (JVal.jnum 10), some (JVal.jstr "Food"),
            some (JVal.jstr "2025-01-02")⟩]
          ++ JItem.nonObj :: []))
      = load_expenses (FileState.parsed
        ([JItem.obj ⟨some (JVal.jnum 10), some (JVal.jstr "Food"),
            some (JVal.jstr "2025-01-02")⟩] ++ [])) :=
  C8_load_lenient.2.2.2.1
    [JItem.obj ⟨some (JVal.jnum 10), some (JVal.jstr "Food"), some (JVal.jstr "2025-01-02")⟩]
    [] JItem.nonObj rfl

/-- Claim C9: the category filter of `view_summary` sums exactly the
amounts of the records whose category matches the query
case-insensitively; it returns 0 when nothing matches, and the overall
total of the empty sequence is 0. -/
theorem C9_filterByCategory (es : List Expense) (cat : String) :
    filterByCategory es cat
        = totalOverall (es.filter (fun e => pyLower e.category == pyLower cat))
    ∧ ((∀ e ∈ es, pyLower e.category ≠ pyLower cat) → filterByCategory es cat = 0)
    ∧ totalOverall [] = 0 := by
  refine ⟨rfl, ?_, rfl⟩
  intro h
  unfold filterByCategory
  rw [List.filter_eq_nil_iff.mpr (by
    intro e he
    simpa using h e he)]
  rfl

theorem C9_filterByCategory_witness :
    filterByCategory [⟨3, "Transport", "2025-01-02"⟩] "food"
        = totalOverall ([⟨3, "Transport", "2025-01-02"⟩].filter
            (fun e => pyLower e.category == pyLower "food"))
    ∧ ((∀ e ∈ [(⟨3, "Transport", "2025-01-02"⟩ : Expense)],
          pyLower e.category ≠ pyLower "food")
        → filterByCategory [⟨3, "Transport", "2025-01-02"⟩] "food" = 0)
    ∧ totalOverall [] = 0 :=
  C9_filterByCategory [⟨3, "Transport", "2025-01-02"⟩] "food"

/-- Claim C10: each record's amount is counted exactly once by each
grouping, so the values of `totalByCategory`, `dailyTotals` and
`monthlyTotals` all sum to `totalOverall` of the same records. -/
theorem C10_partition_of_total (es : List Expense) :
    valuesSum (totalByCategory es) = totalOverall es
    ∧ valuesSum (dailyTotals es) = totalOverall es
    ∧ valuesSum (monthlyTotals es) = totalOverall es := by
  refine ⟨groupSum_valuesSum _ es, ?_, ?_⟩
  · unfold dailyTotals
    rw [sortByKey_valuesSum, groupSum_valuesSum]
  · unfold monthlyTotals
    rw [sortByKey_valuesSum, groupSum_valuesSum]
